import Mathlib

/-!
Shallow embedding, in Lean 4, of the schema-resolution and upsert pipeline of
src/main.py, together with theorems settling the frozen claims about it.
External effects (HTTP traffic, the Notion database contents, clock time) are
modelled by explicit data passed to the embedded functions; machine strings are
Lean strings and timestamps are natural numbers.
-/

namespace NewsPipeline

/-- Embeds the loop of _dedupe_preserve (src/main.py:107-114): keep the first
occurrence of each element, threading the set of already seen elements. -/
def dedupeGo {α : Type} [DecidableEq α] (seen : List α) : List α → List α
  | [] => []
  | x :: rest => if x ∈ seen then dedupeGo seen rest else x :: dedupeGo (x :: seen) rest

/-- Embeds _dedupe_preserve (src/main.py:107). -/
def _dedupe_preserve {α : Type} [DecidableEq α] (items : List α) : List α :=
  dedupeGo [] items

theorem mem_dedupeGo {α : Type} [DecidableEq α] (seen l : List α) (y : α) :
    y ∈ dedupeGo seen l ↔ y ∈ l ∧ y ∉ seen := by
  induction l generalizing seen with
  | nil => simp [dedupeGo]
  | cons x rest ih =>
    by_cases hx : x ∈ seen
    · simp only [dedupeGo, if_pos hx, ih, List.mem_cons]
      constructor
      · rintro ⟨h1, h2⟩
        exact ⟨Or.inr h1, h2⟩
      · rintro ⟨h1 | h1, h2⟩
        · exact absurd (h1 ▸ hx) h2
        · exact ⟨h1, h2⟩
    · simp only [dedupeGo, if_neg hx, List.mem_cons, ih]
      constructor
      · rintro (rfl | ⟨h1, h2⟩)
        · exact ⟨Or.inl rfl, hx⟩
        · exact ⟨Or.inr h1, fun hc => h2 (Or.inr hc)⟩
      · rintro ⟨rfl | h1, h2⟩
        · exact Or.inl rfl
        · by_cases hyx : y = x
          · exact Or.inl hyx
          · exact Or.inr ⟨h1, by simp [List.mem_cons, hyx, h2]⟩

theorem nodup_dedupeGo {α : Type} [DecidableEq α] (seen l : List α) :
    (dedupeGo seen l).Nodup := by
  induction l generalizing seen with
  | nil => simp [dedupeGo]
  | cons x rest ih =>
    by_cases hx : x ∈ seen
    · simpa [dedupeGo, if_pos hx] using ih seen
    · simp only [dedupeGo, if_neg hx, List.nodup_cons]
      refine ⟨fun hc => ?_, ih (x :: seen)⟩
      exact ((mem_dedupeGo _ _ _).mp hc).2 (List.mem_cons_self x seen)

theorem mem_dedupe_preserve {α : Type} [DecidableEq α] (l : List α) (y : α) :
    y ∈ _dedupe_preserve l ↔ y ∈ l := by
  simp [_dedupe_preserve, mem_dedupeGo]

theorem nodup_dedupe_preserve {α : Type} [DecidableEq α] (l : List α) :
    (_dedupe_preserve l).Nodup :=
  nodup_dedupeGo [] l

/-! ## Schema resolver (resolve_data_source_id_by_schema, src/main.py:238-296)

The Notion side is modelled by the data the function reads: the list of child
data sources of the database, where each entry carries the fields that
database.retrieve returns for it (id and name) together with the property-name
set that the subsequent data_source.retrieve on its id returns. -/

/-- One child data source of a database, as seen by the resolver. `id` and
`name` model ds.get("id") and ds.get("name") of the database payload; `props`
models the keys of the properties object returned by retrieving this data
source. -/
structure DataSource where
  id : Option String
  name : Option String
  props : List String
deriving DecidableEq

/-- A validated candidate: data source id, display name, property names. -/
abbrev Cand := String × String × List String

/-- Embeds the candidate-collection loop (src/main.py:250-255): entries with a
missing or empty id are skipped, a falsy name is replaced by the empty
string. -/
def candidatesOf (dataSources : List DataSource) : List Cand :=
  dataSources.filterMap fun ds =>
    match ds.id with
    | some i => if i = "" then none else some (i, ds.name.getD "", ds.props)
    | none => none

/-- Embeds the missing-property computation (src/main.py:262,274): the required
names not present in the property set, in required order. -/
def missingOf (required : List String) (props : List String) : List String :=
  required.filter fun p => decide (p ∉ props)

/-- One scored candidate (src/main.py:270-276); these records also carry
exactly the fields of a diagnostic entry (src/main.py:289-292), where `score`
is the `matched` count. -/
structure Scored where
  score : Nat
  dsId : String
  name : String
  missing : List String
deriving DecidableEq

/-- Embeds the scoring step (src/main.py:271-276). -/
def scoredOf (required : List String) (c : Cand) : Scored :=
  { score := required.length - (missingOf required c.2.2).length
    dsId := c.1
    name := c.2.1
    missing := missingOf required c.2.2 }

/-- The tie-break ordering of src/main.py:284: ascending (name length, name).
Python sorted is a stable sort, modelled here (and below) by the stable
List.insertionSort; any two stable sorts of a total preorder agree. -/
def tieRel (a b : Scored) : Prop :=
  a.name.length < b.name.length ∨ (a.name.length = b.name.length ∧ a.name ≤ b.name)

/-- The diagnostics ordering of src/main.py:288: descending score, then
ascending name. -/
def diagRel (a b : Scored) : Prop :=
  b.score < a.score ∨ (a.score = b.score ∧ a.name ≤ b.name)

instance : DecidableRel tieRel := fun a b => by unfold tieRel; infer_instance

instance : DecidableRel diagRel := fun a b => by unfold diagRel; infer_instance

instance : IsTotal Scored tieRel where
  total a b := by
    unfold tieRel
    rcases Nat.lt_trichotomy a.name.length b.name.length with h | h | h
    · exact Or.inl (Or.inl h)
    · rcases le_total a.name b.name with h2 | h2
      · exact Or.inl (Or.inr ⟨h, h2⟩)
      · exact Or.inr (Or.inr ⟨h.symm, h2⟩)
    · exact Or.inr (Or.inl h)

instance : IsTrans Scored tieRel where
  trans a b c h1 h2 := by
    unfold tieRel at h1 h2 ⊢
    rcases h1 with h1 | ⟨h1a, h1b⟩ <;> rcases h2 with h2 | ⟨h2a, h2b⟩
    · exact Or.inl (h1.trans h2)
    · exact Or.inl (h2a ▸ h1)
    · exact Or.inl (h1a ▸ h2)
    · exact Or.inr ⟨h1a.trans h2a, le_trans h1b h2b⟩

instance : IsTotal Scored diagRel where
  total a b := by
    unfold diagRel
    rcases Nat.lt_trichotomy b.score a.score with h | h | h
    · exact Or.inl (Or.inl h)
    · rcases le_total a.name b.name with h2 | h2
      · exact Or.inl (Or.inr ⟨h.symm, h2⟩)
      · exact Or.inr (Or.inr ⟨h, h2⟩)
    · exact Or.inr (Or.inl h)

instance : IsTrans Scored diagRel where
  trans a b c h1 h2 := by
    unfold diagRel at h1 h2 ⊢
    rcases h1 with h1 | ⟨h1a, h1b⟩ <;> rcases h2 with h2 | ⟨h2a, h2b⟩
    · exact Or.inl (h2.trans h1)
    · exact Or.inl (h2a ▸ h1)
    · exact Or.inl (h1a ▸ h2)
    · exact Or.inr ⟨h1a.trans h2a, le_trans h1b h2b⟩

/-- Result of the resolver: either a data source id, or one of the three error
exits of src/main.py:247-248, 263-266 and 293-296. -/
inductive ResolveResult
  | ok (dsId : String)
  | errNoDataSources
  | errSingleMismatch (name dsId : String) (missing : List String)
  | errNoFullMatch (diag : List Scored)
deriving DecidableEq

/-- Embeds the multi-candidate part of the resolver (src/main.py:269-296):
score every candidate, branch on the number of full matches. -/
def resolveMulti (required : List String) (candidates : List Cand) : ResolveResult :=
  match (candidates.map (scoredOf required)).filter (fun s => s.score == required.length) with
  | [s] => .ok s.dsId
  | [] => .errNoFullMatch (List.insertionSort diagRel (candidates.map (scoredOf required)))
  | s1 :: s2 :: rest =>
    match (List.insertionSort tieRel (s1 :: s2 :: rest)).head? with
    | some s => .ok s.dsId
    | none => .errNoFullMatch []

/-- Embeds resolve_data_source_id_by_schema (src/main.py:238-296). The network
reads of the function are replaced by lookups into the `dataSources` input
described at `DataSource`. -/
def resolve_data_source_id_by_schema (dataSources : List DataSource)
    (required : List String) : ResolveResult :=
  if dataSources.isEmpty then .errNoDataSources
  else
    match candidatesOf dataSources with
    | [c] =>
      let missing := missingOf required c.2.2
      if missing.isEmpty then .ok c.1 else .errSingleMismatch c.2.1 c.1 missing
    | cs => resolveMulti required cs

/-- A candidate fully matches when its property set contains every required
name. -/
def fullMatch (required : List String) (props : List String) : Prop :=
  ∀ p ∈ required, p ∈ props

instance (required props : List String) : Decidable (fullMatch required props) := by
  unfold fullMatch; infer_instance

theorem length_missingOf_le (required props : List String) :
    (missingOf required props).length ≤ required.length :=
  List.length_filter_le _ _

theorem scoredOf_score_eq_iff (required : List String) (c : Cand) :
    (scoredOf required c).score = required.length ↔ fullMatch required c.2.2 := by
  have hle := length_missingOf_le required c.2.2
  constructor
  · intro h
    have hm : (missingOf required c.2.2).length = 0 := by
      simp only [scoredOf] at h
      omega
    have hnil : missingOf required c.2.2 = [] := List.eq_nil_of_length_eq_zero hm
    intro p hp
    by_contra hnp
    have : p ∈ missingOf required c.2.2 := by
      simp [missingOf, hp, hnp]
    simp [hnil] at this
  · intro h
    have hnil : missingOf required c.2.2 = [] := by
      simp only [missingOf, List.filter_eq_nil_iff, decide_eq_true_eq]
      intro p hp
      simp [h p hp]
    simp [scoredOf, hnil]

theorem exists_cons_cons_of_two_le {α : Type} {l : List α} (h : 2 ≤ l.length) :
    ∃ a b t, l = a :: b :: t := by
  cases l with
  | nil => simp at h
  | cons a l2 =>
    cases l2 with
    | nil => simp at h
    | cons b t => exact ⟨a, b, t, rfl⟩

theorem candidatesOf_ne_nil_isEmpty_false {dataSources : List DataSource}
    (h : candidatesOf dataSources ≠ []) : dataSources.isEmpty = false := by
  cases dataSources with
  | nil => simp [candidatesOf] at h
  | cons d t => simp

/-- The full-match filter over the scored list is the scoredOf image of the
full-match filter over the candidates. -/
theorem full_filter_eq (required : List String) (cs : List Cand) :
    ((cs.map (scoredOf required)).filter (fun s => s.score == required.length)) =
      (cs.filter (fun d => decide (fullMatch required d.2.2))).map (scoredOf required) := by
  rw [List.filter_map]
  congr 1
  apply List.filter_congr
  intro d _
  by_cases h : fullMatch required d.2.2
  · have h2 := (scoredOf_score_eq_iff required d).mpr h
    simp [h, h2]
  · have h2 : (scoredOf required d).score ≠ required.length :=
      fun hc => h ((scoredOf_score_eq_iff required d).mp hc)
    simp [h, h2]

/-- C1: with several candidate schemas, if exactly one candidate contains every
required field then resolution returns the id of that candidate, whatever the
partial scores of the others are. -/
theorem resolveSchema_unique_full_match (dataSources : List DataSource)
    (required : List String) (c : Cand)
    (hmulti : 2 ≤ (candidatesOf dataSources).length)
    (hc : c ∈ candidatesOf dataSources)
    (hfull : fullMatch required c.2.2)
    (huniq : (candidatesOf dataSources).countP
      (fun d => decide (fullMatch required d.2.2)) = 1) :
    resolve_data_source_id_by_schema dataSources required = .ok c.1 := by
  obtain ⟨a, b, t, hcs⟩ := exists_cons_cons_of_two_le hmulti
  have hne : dataSources.isEmpty = false :=
    candidatesOf_ne_nil_isEmpty_false (by simp [hcs])
  have hfilter : (candidatesOf dataSources).filter
      (fun d => decide (fullMatch required d.2.2)) = [c] := by
    have hlen : ((candidatesOf dataSources).filter
        (fun d => decide (fullMatch required d.2.2))).length = 1 := by
      rw [← List.countP_eq_length_filter]
      exact huniq
    obtain ⟨x, hx⟩ := List.length_eq_one.mp hlen
    have hcmem : c ∈ (candidatesOf dataSources).filter
        (fun d => decide (fullMatch required d.2.2)) := by
      simp [List.mem_filter, hc, hfull]
    rw [hx] at hcmem ⊢
    simp only [List.mem_singleton] at hcmem
    rw [hcmem]
  have hfull1 : ((candidatesOf dataSources).map (scoredOf required)).filter
      (fun s => s.score == required.length) = [scoredOf required c] := by
    rw [full_filter_eq, hfilter]
    rfl
  rw [resolve_data_source_id_by_schema, hne]
  simp only [Bool.false_eq_true, if_false]
  rw [hcs]
  show resolveMulti required (a :: b :: t) = .ok c.1
  rw [resolveMulti, ← hcs, hfull1]
  rfl

/-- Witness for C1 at a concrete input: two candidate schemas, only the second
contains both required fields. -/
theorem resolveSchema_unique_full_match_witness :
    resolve_data_source_id_by_schema
      [⟨some "ds1", some "partial", ["제목"]⟩, ⟨some "ds2", some "full", ["제목", "url"]⟩]
      ["제목", "url"] = .ok "ds2" := by
  apply resolveSchema_unique_full_match
      (c := ("ds2", "full", ["제목", "url"]))
  · decide
  · decide
  · decide
  · decide

/-- The list of fully matching scored candidates (src/main.py:279). -/
def fullOf (required : List String) (cs : List Cand) : List Scored :=
  (cs.map (scoredOf required)).filter (fun s => s.score == required.length)

/-- The head of a stable-sort result belongs to the input and is a lower bound
for it, for any total transitive ordering. -/
theorem insertionSort_head?_min {α : Type} (r : α → α → Prop) [DecidableRel r]
    [IsTotal α r] [IsTrans α r]
    (l : List α) (s : α) (h : (List.insertionSort r l).head? = some s) :
    s ∈ l ∧ ∀ t ∈ l, r s t := by
  obtain ⟨tail, htl⟩ : ∃ tail, List.insertionSort r l = s :: tail := by
    cases hms : List.insertionSort r l with
    | nil => rw [hms] at h; simp at h
    | cons x xs =>
      rw [hms] at h
      simp only [List.head?_cons, Option.some.injEq] at h
      exact ⟨xs, by rw [h]⟩
  have hsorted := List.sorted_insertionSort r l
  rw [htl] at hsorted
  constructor
  · have hmem : s ∈ List.insertionSort r l := by rw [htl]; exact List.mem_cons_self _ _
    exact (List.mem_insertionSort r).mp hmem
  · intro t ht
    have htm : t ∈ s :: tail := by rw [← htl]; exact (List.mem_insertionSort r).mpr ht
    rcases List.mem_cons.mp htm with rfl | htail
    · exact (total_of r t t).elim id id
    · exact (List.pairwise_cons.mp hsorted).1 t htail

/-- The database used in the tie-break example: two data sources whose property
sets both contain the single required field, named "AB" and "A". -/
def tieExampleDB : List DataSource :=
  [⟨some "d1", some "AB", ["f"]⟩, ⟨some "d2", some "A", ["f"]⟩]

/-- C2: with several candidate schemas and more than one full match, resolution
returns a full match whose (name length, name) key is least among all full
matches; the second conjunct instantiates this on two full matches named "AB"
and "A", where the data source named "A" wins. -/
theorem resolveSchema_tiebreak (dataSources : List DataSource) (required : List String)
    (hmulti : 2 ≤ (candidatesOf dataSources).length)
    (hfull2 : 2 ≤ (fullOf required (candidatesOf dataSources)).length) :
    (∃ s ∈ fullOf required (candidatesOf dataSources),
       resolve_data_source_id_by_schema dataSources required = .ok s.dsId ∧
       ∀ u ∈ fullOf required (candidatesOf dataSources),
         s.name.length < u.name.length ∨
           (s.name.length = u.name.length ∧ s.name ≤ u.name)) ∧
    resolve_data_source_id_by_schema tieExampleDB ["f"] = .ok "d2" := by
  constructor
  · obtain ⟨a, b, t, hcs⟩ := exists_cons_cons_of_two_le hmulti
    have hne : dataSources.isEmpty = false :=
      candidatesOf_ne_nil_isEmpty_false (by simp [hcs])
    obtain ⟨s1, s2, rest, hfo⟩ := exists_cons_cons_of_two_le hfull2
    obtain ⟨s, hs⟩ : ∃ s, (List.insertionSort tieRel (s1 :: s2 :: rest)).head? = some s := by
      cases hms : List.insertionSort tieRel (s1 :: s2 :: rest) with
      | nil =>
        have := (List.perm_insertionSort tieRel (s1 :: s2 :: rest)).length_eq
        rw [hms] at this
        simp at this
      | cons x xs => exact ⟨x, by simp⟩
    obtain ⟨hsmem, hsmin⟩ := insertionSort_head?_min tieRel (s1 :: s2 :: rest) s hs
    refine ⟨s, by rw [hfo]; exact hsmem, ?_, ?_⟩
    · rw [resolve_data_source_id_by_schema, hne]
      simp only [Bool.false_eq_true, if_false]
      rw [hcs]
      show resolveMulti required (a :: b :: t) = .ok s.dsId
      rw [resolveMulti, ← hcs]
      have hrw : ((candidatesOf dataSources).map (scoredOf required)).filter
          (fun x => x.score == required.length) = s1 :: s2 :: rest := hfo
      rw [hrw]
      show (match (List.insertionSort tieRel (s1 :: s2 :: rest)).head? with
        | some s => ResolveResult.ok s.dsId
        | none => ResolveResult.errNoFullMatch []) = ResolveResult.ok s.dsId
      rw [hs]
    · intro u hu
      rw [hfo] at hu
      exact hsmin u hu
  · decide

/-- Witness for C2: the tie-break hypotheses hold on the concrete two-source
database and the conclusion follows by applying the theorem there. -/
theorem resolveSchema_tiebreak_witness :
    (2 ≤ (candidatesOf tieExampleDB).length ∧
      2 ≤ (fullOf ["f"] (candidatesOf tieExampleDB)).length) ∧
    (∃ s ∈ fullOf ["f"] (candidatesOf tieExampleDB),
       resolve_data_source_id_by_schema tieExampleDB ["f"] = .ok s.dsId ∧
       ∀ u ∈ fullOf ["f"] (candidatesOf tieExampleDB),
         s.name.length < u.name.length ∨
           (s.name.length = u.name.length ∧ s.name ≤ u.name)) :=
  ⟨⟨by decide, by decide⟩,
    (resolveSchema_tiebreak tieExampleDB ["f"] (by decide) (by decide)).1⟩

theorem mem_missingOf (required props : List String) (p : String) :
    p ∈ missingOf required props ↔ p ∈ required ∧ p ∉ props := by
  simp [missingOf]

theorem resolve_eq_resolveMulti (dataSources : List DataSource) (required : List String)
    (h2 : 2 ≤ (candidatesOf dataSources).length) :
    resolve_data_source_id_by_schema dataSources required =
      resolveMulti required (candidatesOf dataSources) := by
  obtain ⟨a, b, t, hcs⟩ := exists_cons_cons_of_two_le h2
  have hne : dataSources.isEmpty = false :=
    candidatesOf_ne_nil_isEmpty_false (by simp [hcs])
  rw [resolve_data_source_id_by_schema, hne]
  simp only [Bool.false_eq_true, if_false]
  rw [hcs]

/-- C3: the three failure exits of the resolver. First conjunct: an empty
child-schema list fails. Second conjunct: a single candidate missing some
required field fails carrying exactly the missing names. Third conjunct: with
several candidates and no full match, the failure carries one diagnostic entry
per candidate, each with the candidate id, name, match score and missing set,
sorted by descending score then ascending name. Fourth conjunct: whenever some
candidate fully matches, the resolver succeeds, so failure happens exactly in
the no-full-match situations. -/
theorem resolveSchema_error_cases (dataSources : List DataSource) (required : List String) :
    (dataSources = [] →
      resolve_data_source_id_by_schema dataSources required = .errNoDataSources) ∧
    (∀ c : Cand, candidatesOf dataSources = [c] → missingOf required c.2.2 ≠ [] →
      resolve_data_source_id_by_schema dataSources required =
        .errSingleMismatch c.2.1 c.1 (missingOf required c.2.2) ∧
      ∀ p, p ∈ missingOf required c.2.2 ↔ p ∈ required ∧ p ∉ c.2.2) ∧
    (2 ≤ (candidatesOf dataSources).length →
      (∀ c ∈ candidatesOf dataSources, ¬ fullMatch required c.2.2) →
      ∃ diag, resolve_data_source_id_by_schema dataSources required = .errNoFullMatch diag ∧
        diag.Perm ((candidatesOf dataSources).map (scoredOf required)) ∧
        diag.Pairwise (fun a b => b.score < a.score ∨ (a.score = b.score ∧ a.name ≤ b.name)) ∧
        (∀ e ∈ diag, e.score + e.missing.length = required.length) ∧
        (∀ c ∈ candidatesOf dataSources,
          (scoredOf required c).dsId = c.1 ∧ (scoredOf required c).name = c.2.1 ∧
          ∀ p, p ∈ (scoredOf required c).missing ↔ p ∈ required ∧ p ∉ c.2.2)) ∧
    ((∃ c ∈ candidatesOf dataSources, fullMatch required c.2.2) →
      ∃ i, resolve_data_source_id_by_schema dataSources required = .ok i) := by
  refine ⟨?_, ?_, ?_, ?_⟩
  · intro h
    subst h
    simp [resolve_data_source_id_by_schema]
  · intro c hc hmiss
    have hne : dataSources.isEmpty = false :=
      candidatesOf_ne_nil_isEmpty_false (by simp [hc])
    have hie : (missingOf required c.2.2).isEmpty = false := by
      cases hm : missingOf required c.2.2 with
      | nil => exact absurd hm hmiss
      | cons x xs => rfl
    constructor
    · rw [resolve_data_source_id_by_schema, hne]
      simp only [Bool.false_eq_true, if_false]
      rw [hc]
      show (if (missingOf required c.2.2).isEmpty then ResolveResult.ok c.1
        else ResolveResult.errSingleMismatch c.2.1 c.1 (missingOf required c.2.2)) =
          ResolveResult.errSingleMismatch c.2.1 c.1 (missingOf required c.2.2)
      rw [hie]
      simp
    · exact mem_missingOf required c.2.2
  · intro h2 hnofull
    have hfilter : ((candidatesOf dataSources).map (scoredOf required)).filter
        (fun s => s.score == required.length) = [] := by
      rw [full_filter_eq]
      have : (candidatesOf dataSources).filter
          (fun d => decide (fullMatch required d.2.2)) = [] := by
        rw [List.filter_eq_nil_iff]
        intro d hd
        simpa using hnofull d hd
      rw [this]
      rfl
    refine ⟨List.insertionSort diagRel ((candidatesOf dataSources).map (scoredOf required)),
      ?_, ?_, ?_, ?_, ?_⟩
    · rw [resolve_eq_resolveMulti dataSources required h2, resolveMulti, hfilter]
    · exact List.perm_insertionSort diagRel _
    · exact (List.sorted_insertionSort diagRel _).imp (fun h => by unfold diagRel at h; exact h)
    · intro e he
      have hmem : e ∈ (candidatesOf dataSources).map (scoredOf required) :=
        ((List.perm_insertionSort diagRel _).mem_iff).mp he
      obtain ⟨c, _, rfl⟩ := List.mem_map.mp hmem
      have := length_missingOf_le required c.2.2
      simp only [scoredOf]
      omega
    · intro c _
      exact ⟨rfl, rfl, mem_missingOf required c.2.2⟩
  · rintro ⟨c, hc, hful⟩
    have hne : dataSources.isEmpty = false :=
      candidatesOf_ne_nil_isEmpty_false (by intro h; rw [h] at hc; simp at hc)
    cases hcs : candidatesOf dataSources with
    | nil => rw [hcs] at hc; simp at hc
    | cons a tl =>
      cases tl with
      | nil =>
        rw [hcs] at hc
        simp only [List.mem_singleton] at hc
        subst hc
        have hnil : missingOf required c.2.2 = [] := by
          rw [List.eq_nil_iff_forall_not_mem]
          intro p hp
          rw [mem_missingOf] at hp
          exact hp.2 (hful p hp.1)
        refine ⟨c.1, ?_⟩
        rw [resolve_data_source_id_by_schema, hne]
        simp only [Bool.false_eq_true, if_false]
        rw [hcs]
        show (if (missingOf required c.2.2).isEmpty then ResolveResult.ok c.1
          else ResolveResult.errSingleMismatch c.2.1 c.1 (missingOf required c.2.2)) =
            ResolveResult.ok c.1
        rw [hnil]
        rfl
      | cons b t =>
        have h2 : 2 ≤ (candidatesOf dataSources).length := by
          rw [hcs]
          simp only [List.length_cons]
          omega
        rw [resolve_eq_resolveMulti dataSources required h2, resolveMulti]
        have hmem : scoredOf required c ∈ ((candidatesOf dataSources).map
            (scoredOf required)).filter (fun s => s.score == required.length) := by
          rw [List.mem_filter]
          refine ⟨List.mem_map_of_mem _ hc, ?_⟩
          simp only [beq_iff_eq]
          exact (scoredOf_score_eq_iff required c).mpr hful
        cases hf : ((candidatesOf dataSources).map (scoredOf required)).filter
            (fun s => s.score == required.length) with
        | nil => rw [hf] at hmem; simp at hmem
        | cons s1 tl2 =>
          cases tl2 with
          | nil => exact ⟨s1.dsId, rfl⟩
          | cons s2 rest =>
            obtain ⟨s, hs⟩ : ∃ s,
                (List.insertionSort tieRel (s1 :: s2 :: rest)).head? = some s := by
              cases hms : List.insertionSort tieRel (s1 :: s2 :: rest) with
              | nil =>
                have := (List.perm_insertionSort tieRel (s1 :: s2 :: rest)).length_eq
                rw [hms] at this
                simp at this
              | cons x xs => exact ⟨x, by simp⟩
            refine ⟨s.dsId, ?_⟩
            show (match (List.insertionSort tieRel (s1 :: s2 :: rest)).head? with
              | some s => ResolveResult.ok s.dsId
              | none => ResolveResult.errNoFullMatch []) = ResolveResult.ok s.dsId
            rw [hs]

/-- Witness for C3 at concrete inputs: an empty database, a single mismatching
candidate, and a two-candidate database with no full match. -/
theorem resolveSchema_error_cases_witness :
    (resolve_data_source_id_by_schema [] ["용어"] = .errNoDataSources) ∧
    (resolve_data_source_id_by_schema [⟨some "d1", some "terms", ["의미"]⟩] ["용어", "의미"] =
      .errSingleMismatch "terms" "d1" ["용어"]) ∧
    (∃ diag, resolve_data_source_id_by_schema
        [⟨some "d1", some "x", ["의미"]⟩, ⟨some "d2", some "y", []⟩] ["용어", "의미"] =
          .errNoFullMatch diag ∧
      diag.Perm (([(("d1" : String), ("x" : String), ["의미"]),
        (("d2" : String), ("y" : String), ([] : List String))].map (scoredOf ["용어", "의미"]))) ∧
      diag.Pairwise (fun a b => b.score < a.score ∨ (a.score = b.score ∧ a.name ≤ b.name)) ∧
      (∀ e ∈ diag, e.score + e.missing.length = (["용어", "의미"] : List String).length) ∧
      (∀ c ∈ candidatesOf [⟨some "d1", some "x", ["의미"]⟩, ⟨some "d2", some "y", []⟩],
        (scoredOf ["용어", "의미"] c).dsId = c.1 ∧
        (scoredOf ["용어", "의미"] c).name = c.2.1 ∧
        ∀ p, p ∈ (scoredOf ["용어", "의미"] c).missing ↔
          p ∈ (["용어", "의미"] : List String) ∧ p ∉ c.2.2)) := by
  refine ⟨?_, ?_, ?_⟩
  · exact (resolveSchema_error_cases [] ["용어"]).1 rfl
  · exact ((resolveSchema_error_cases [⟨some "d1", some "terms", ["의미"]⟩]
      ["용어", "의미"]).2.1 ("d1", "terms", ["의미"]) (by decide) (by decide)).1
  · have h := (resolveSchema_error_cases
      [⟨some "d1", some "x", ["의미"]⟩, ⟨some "d2", some "y", []⟩]
      ["용어", "의미"]).2.2.1 (by decide) (by decide)
    obtain ⟨diag, h1, h2, h3, h4, h5⟩ := h
    exact ⟨diag, h1, h2, h3, h4, h5⟩

/-! ## Transport client (notion_request, src/main.py:150-192)

One call is modelled against a trace: outcome `i` is what the i-th HTTP attempt
produces. A response carries its status code and the parsed-or-raw error body
serialised to a string (on success the same string models the parsed JSON
body); the two network exception classes caught on src/main.py:186 are one
constructor, and every other exception is `otherExc`. -/

/-- What one HTTP attempt of notion_request produces. -/
inductive AttemptOutcome
  | response (status : Nat) (body : String)
  | netError (body : String)
  | otherExc (msg : String)
deriving DecidableEq

/-- How one notion_request call ends. `exhausted` is the raise on
src/main.py:192, `httpError` the raise on src/main.py:185, `reraised` the
re-raise on src/main.py:190. -/
inductive ReqResult
  | ok (body : String)
  | httpError (status : Nat) (body : String)
  | exhausted (lastErr : Option String)
  | reraised (msg : String)
deriving DecidableEq

/-- The statuses retried on src/main.py:180. -/
def retryableStatus (s : Nat) : Bool :=
  s == 429 || s == 500 || s == 502 || s == 503 || s == 504

/-- An outcome that makes the loop continue to the next attempt. -/
def retryableOutcome : AttemptOutcome → Bool
  | .response s _ => retryableStatus s
  | .netError _ => true
  | .otherExc _ => false

/-- The error body remembered in last_err for a retried outcome. -/
def errBodyOf : AttemptOutcome → String
  | .response _ b => b
  | .netError b => b
  | .otherExc m => m

/-- Number of attempts notion_request makes (NOTION_RETRY, src/main.py:78). -/
def NOTION_RETRY : Nat := 4

/-- Embeds the retry loop of notion_request (src/main.py:158-192). `attempt` is
the loop index, `fuel` the remaining loop iterations, `lastErr` the last_err
variable. The returned number is the index one past the last attempt made. -/
def notionRequestGo (outcomes : Nat → AttemptOutcome) :
    Nat → Nat → Option String → ReqResult × Nat
  | attempt, 0, lastErr => (.exhausted lastErr, attempt)
  | attempt, fuel + 1, lastErr =>
    match outcomes attempt with
    | .response status body =>
      if 200 ≤ status ∧ status < 300 then (.ok body, attempt + 1)
      else if retryableStatus status then
        notionRequestGo outcomes (attempt + 1) fuel (some body)
      else (.httpError status body, attempt + 1)
    | .netError body => notionRequestGo outcomes (attempt + 1) fuel (some body)
    | .otherExc msg => (.reraised msg, attempt + 1)

/-- Embeds notion_request (src/main.py:150): run the loop from attempt 0 with
NOTION_RETRY iterations and no last error. -/
def notion_request (outcomes : Nat → AttemptOutcome) : ReqResult × Nat :=
  notionRequestGo outcomes 0 NOTION_RETRY none

/-- The backoff delay of _sleep_backoff (src/main.py:135-138), with the float
literals 0.6, 6.0 and 0.05 modelled as exact rationals. -/
def sleepDelay (attempt : Nat) : ℚ :=
  min 6 ((3 / 5) * 2 ^ attempt) + (1 / 20) * attempt

/-- The retry classes named by the claim: rate limit, any server-side 5xx, or a
network timeout or connection error. -/
def claimRetryClass : AttemptOutcome → Prop
  | .response s _ => s = 429 ∨ (500 ≤ s ∧ s ≤ 599)
  | .netError _ => True
  | .otherExc _ => False

theorem retryableOutcome_claimClass (o : AttemptOutcome)
    (h : retryableOutcome o = true) : claimRetryClass o := by
  cases o with
  | response s b =>
    simp only [retryableOutcome, retryableStatus, Bool.or_eq_true, beq_iff_eq] at h
    unfold claimRetryClass
    omega
  | netError b => trivial
  | otherExc m => simp [retryableOutcome] at h

theorem notionRequestGo_le (outcomes : Nat → AttemptOutcome) (fuel attempt : Nat)
    (lastErr : Option String) :
    attempt ≤ (notionRequestGo outcomes attempt fuel lastErr).2 ∧
      (notionRequestGo outcomes attempt fuel lastErr).2 ≤ attempt + fuel := by
  induction fuel generalizing attempt lastErr with
  | zero => simp [notionRequestGo]
  | succ n ih =>
    rw [notionRequestGo]
    cases outcomes attempt with
    | response status body =>
      dsimp only
      by_cases h2 : 200 ≤ status ∧ status < 300
      · simp only [if_pos h2]
        omega
      · rw [if_neg h2]
        by_cases hr : retryableStatus status
        · rw [if_pos hr]
          have := ih (attempt + 1) (some body)
          omega
        · rw [if_neg hr]
          omega
    | netError body =>
      dsimp only
      have := ih (attempt + 1) (some body)
      omega
    | otherExc msg =>
      dsimp only
      omega

theorem notionRequestGo_retried (outcomes : Nat → AttemptOutcome) (fuel attempt : Nat)
    (lastErr : Option String) (i : Nat) (hi : attempt ≤ i)
    (hlt : i + 1 < (notionRequestGo outcomes attempt fuel lastErr).2) :
    retryableOutcome (outcomes i) = true := by
  induction fuel generalizing attempt lastErr with
  | zero => simp [notionRequestGo] at hlt; omega
  | succ n ih =>
    rw [notionRequestGo] at hlt
    cases ho : outcomes attempt with
    | response status body =>
      rw [ho] at hlt
      dsimp only at hlt
      by_cases h2 : 200 ≤ status ∧ status < 300
      · rw [if_pos h2] at hlt
        dsimp only at hlt
        omega
      · rw [if_neg h2] at hlt
        by_cases hr : retryableStatus status
        · rw [if_pos hr] at hlt
          rcases Nat.eq_or_lt_of_le hi with rfl | hgt
          · rw [ho]
            simp [retryableOutcome, hr]
          · exact ih (attempt + 1) (some body) hgt hlt
        · rw [if_neg hr] at hlt
          dsimp only at hlt
          omega
    | netError body =>
      rw [ho] at hlt
      dsimp only at hlt
      rcases Nat.eq_or_lt_of_le hi with rfl | hgt
      · rw [ho]
        rfl
      · exact ih (attempt + 1) (some body) hgt hlt
    | otherExc msg =>
      rw [ho] at hlt
      dsimp only at hlt
      omega

theorem notionRequestGo_exhausted (outcomes : Nat → AttemptOutcome) (fuel attempt : Nat)
    (lastErr le : Option String)
    (h : (notionRequestGo outcomes attempt fuel lastErr).1 = .exhausted le) :
    (notionRequestGo outcomes attempt fuel lastErr).2 = attempt + fuel ∧
      (∀ i, attempt ≤ i → i < attempt + fuel → retryableOutcome (outcomes i) = true) ∧
      (fuel = 0 → le = lastErr) ∧
      (0 < fuel → le = some (errBodyOf (outcomes (attempt + fuel - 1)))) := by
  induction fuel generalizing attempt lastErr with
  | zero =>
    simp only [notionRequestGo] at h ⊢
    refine ⟨rfl, fun i h1 h2 => absurd h2 (by omega), fun _ => ?_, fun hf => absurd hf (by omega)⟩
    injection h with h2
    exact h2.symm
  | succ n ih =>
    rw [notionRequestGo] at h ⊢
    cases ho : outcomes attempt with
    | response status body =>
      rw [ho] at h
      dsimp only at h ⊢
      by_cases h2 : 200 ≤ status ∧ status < 300
      · rw [if_pos h2] at h
        simp at h
      · rw [if_neg h2] at h ⊢
        by_cases hr : retryableStatus status
        · rw [if_pos hr] at h ⊢
          obtain ⟨ha, hb, hc, hd⟩ := ih (attempt + 1) (some body) h
          refine ⟨by omega, ?_, by omega, ?_⟩
          · intro i h1 hlt
            rcases Nat.eq_or_lt_of_le h1 with rfl | hgt
            · rw [ho]
              simp [retryableOutcome, hr]
            · exact hb i hgt (by omega)
          · intro _
            cases n with
            | zero =>
              have h0 := hc rfl
              have hidx : attempt + (0 + 1) - 1 = attempt := by omega
              rw [hidx, ho, h0]
              rfl
            | succ m =>
              have hm := hd (by omega)
              have hidx : attempt + 1 + (m + 1) - 1 = attempt + (m + 1 + 1) - 1 := by omega
              rw [hm, hidx]
        · rw [if_neg hr] at h
          simp at h
    | netError body =>
      rw [ho] at h
      dsimp only at h ⊢
      obtain ⟨ha, hb, hc, hd⟩ := ih (attempt + 1) (some body) h
      refine ⟨by omega, ?_, by omega, ?_⟩
      · intro i h1 hlt
        rcases Nat.eq_or_lt_of_le h1 with rfl | hgt
        · rw [ho]
          rfl
        · exact hb i hgt (by omega)
      · intro _
        cases n with
        | zero =>
          have h0 := hc rfl
          have hidx : attempt + (0 + 1) - 1 = attempt := by omega
          rw [hidx, ho, h0]
          rfl
        | succ m =>
          have hm := hd (by omega)
          have hidx : attempt + 1 + (m + 1) - 1 = attempt + (m + 1 + 1) - 1 := by omega
          rw [hm, hidx]
    | otherExc msg =>
      rw [ho] at h
      simp at h

theorem notionRequestGo_immediate (outcomes : Nat → AttemptOutcome) (fuel attempt : Nat)
    (lastErr : Option String) (i s : Nat) (b : String)
    (hi : attempt ≤ i) (hfu : i < attempt + fuel)
    (hpre : ∀ j, attempt ≤ j → j < i → retryableOutcome (outcomes j) = true)
    (ho : outcomes i = .response s b)
    (h2 : ¬(200 ≤ s ∧ s < 300)) (hr : retryableStatus s = false) :
    notionRequestGo outcomes attempt fuel lastErr = (.httpError s b, i + 1) := by
  induction fuel generalizing attempt lastErr with
  | zero => omega
  | succ n ih =>
    rw [notionRequestGo]
    rcases Nat.eq_or_lt_of_le hi with rfl | hgt
    · rw [ho]
      dsimp only
      rw [if_neg h2, hr]
      simp
    · have hra : retryableOutcome (outcomes attempt) = true :=
        hpre attempt le_rfl hgt
      cases hoa : outcomes attempt with
      | response st bd =>
        rw [hoa] at hra
        simp only [retryableOutcome] at hra
        have hn2 : ¬(200 ≤ st ∧ st < 300) := by
          simp only [retryableStatus, Bool.or_eq_true, beq_iff_eq] at hra
          omega
        dsimp only
        rw [if_neg hn2, if_pos hra]
        exact ih (attempt + 1) (some bd) hgt (by omega)
          (fun j hj1 hj2 => hpre j (by omega) hj2)
      | netError bd =>
        dsimp only
        exact ih (attempt + 1) (some bd) hgt (by omega)
          (fun j hj1 hj2 => hpre j (by omega) hj2)
      | otherExc m =>
        rw [hoa] at hra
        simp [retryableOutcome] at hra

/-- C4: the transport client makes at most 4 attempts; every attempt that is
followed by another one hit the rate-limit, 5xx or network retry classes; any
other 4xx response ends the call immediately as an error with no retry; an
exhausted call made all 4 attempts, every one was retryable, and the terminal
error carries the error body of the last attempt; and the backoff delay
between attempts is the exponential schedule capped at 6 seconds plus linear
jitter. -/
theorem notionRequest_retry_policy (outcomes : Nat → AttemptOutcome) :
    (notion_request outcomes).2 ≤ 4 ∧
    (∀ i, i + 1 < (notion_request outcomes).2 → claimRetryClass (outcomes i)) ∧
    (∀ i s b, i < 4 → (∀ j, j < i → retryableOutcome (outcomes j) = true) →
      outcomes i = .response s b → 400 ≤ s → s < 500 → s ≠ 429 →
      notion_request outcomes = (.httpError s b, i + 1)) ∧
    (∀ le, (notion_request outcomes).1 = .exhausted le →
      (notion_request outcomes).2 = 4 ∧
      (∀ i, i < 4 → claimRetryClass (outcomes i)) ∧
      le = some (errBodyOf (outcomes 3))) ∧
    (∀ a, sleepDelay a ≤ 6 + (1 / 20) * a) := by
  refine ⟨?_, ?_, ?_, ?_, ?_⟩
  · exact (notionRequestGo_le outcomes NOTION_RETRY 0 none).2
  · intro i hlt
    exact retryableOutcome_claimClass _
      (notionRequestGo_retried outcomes NOTION_RETRY 0 none i (Nat.zero_le i) hlt)
  · intro i s b hi hpre ho hs4 hs5 hs429
    have h2 : ¬(200 ≤ s ∧ s < 300) := by omega
    have hr : retryableStatus s = false := by
      simp only [retryableStatus, Bool.or_eq_false_iff, beq_eq_false_iff_ne, ne_eq]
      omega
    exact notionRequestGo_immediate outcomes NOTION_RETRY 0 none i s b (Nat.zero_le i)
      (by simpa [NOTION_RETRY] using hi) (fun j _ hj2 => hpre j hj2) ho h2 hr
  · intro le hle
    obtain ⟨ha, hb, _, hd⟩ := notionRequestGo_exhausted outcomes NOTION_RETRY 0 none le hle
    refine ⟨ha, ?_, ?_⟩
    · intro i hi
      exact retryableOutcome_claimClass _ (hb i (Nat.zero_le i) (by simpa [NOTION_RETRY] using hi))
    · simpa [NOTION_RETRY] using hd (by simp [NOTION_RETRY])
  · intro a
    have : min (6 : ℚ) ((3 / 5) * 2 ^ a) ≤ 6 := min_le_left _ _
    unfold sleepDelay
    linarith

/-- Witness for C4: a trace with one rate limit, then a 404, which the client
raises immediately on the second attempt without retrying. -/
theorem notionRequest_retry_policy_witness :
    notion_request (fun i => if i = 0 then .response 429 "rate" else .response 404 "missing") =
      (.httpError 404 "missing", 2) := by
  have h := (notionRequest_retry_policy
    (fun i => if i = 0 then .response 429 "rate" else .response 404 "missing")).2.2.1
  exact h 1 404 "missing" (by decide)
    (fun j hj => by
      interval_cases j
      decide)
    (by decide) (by decide) (by decide) (by decide)

/-! ## String helpers (_compact and the fallback keyword scan)

Strings are handled through their character lists. Whitespace is modelled for
the ASCII range, matching what str.strip and the regex whitespace class of the
source do on the feeds handled here. -/

/-- Whitespace characters recognised by str.strip and the whitespace class of
re.sub on src/main.py:92, restricted to the ASCII range. -/
def isPySpace (c : Char) : Bool :=
  c == ' ' || c == '\t' || c == '\n' || c == '\r' || c == '\x0b' || c == '\x0c'

/-- Embeds str.strip: drop leading and trailing whitespace. -/
def stripList (l : List Char) : List Char :=
  ((l.dropWhile isPySpace).reverse.dropWhile isPySpace).reverse

/-- Embeds str.strip on strings. -/
def pyStrip (s : String) : String := ⟨stripList s.data⟩

/-- Embeds the substitution of every whitespace run by one space
(src/main.py:92); the flag records whether the previous character was
whitespace. -/
def collapseWS : Bool → List Char → List Char
  | _, [] => []
  | prevSpace, c :: rest =>
    if isPySpace c then
      if prevSpace then collapseWS true rest
      else ' ' :: collapseWS true rest
    else c :: collapseWS false rest

/-- Embeds _compact (src/main.py:91-95): strip, collapse whitespace runs to
single spaces, truncate to `limit` characters plus a horizontal ellipsis. -/
def _compact (s : String) (limit : Nat) : String :=
  if limit < (collapseWS false (stripList s.data)).length then
    ⟨(collapseWS false (stripList s.data)).take limit⟩ ++ "…"
  else ⟨collapseWS false (stripList s.data)⟩

/-- The character class of the keyword regex on src/main.py:433: ASCII
letters, Hangul syllables, digits, middle dot, hyphen. -/
def isTermChar (c : Char) : Bool :=
  ('A' ≤ c && c ≤ 'Z') || ('a' ≤ c && c ≤ 'z') ||
    (0xAC00 ≤ c.toNat && c.toNat ≤ 0xD7A3) || ('0' ≤ c && c ≤ '9') ||
    c == '·' || c == '-'

/-- Maximal runs of characters satisfying p; `cur` holds the current run in
reverse. Greedy matching of a one-or-more character class finds exactly the
maximal runs. -/
def runsGo (p : Char → Bool) (cur : List Char) : List Char → List (List Char)
  | [] => if cur.isEmpty then [] else [cur.reverse]
  | c :: rest =>
    if p c then runsGo p (c :: cur) rest
    else if cur.isEmpty then runsGo p [] rest
    else cur.reverse :: runsGo p [] rest

/-- Embeds re.findall of the term regex (src/main.py:433): maximal runs of
term characters, kept when at least 2 characters long (the two-or-more
quantifier). -/
def findTermTokens (s : String) : List String :=
  ((runsGo isTermChar [] s.data).filter (fun r => 2 ≤ r.length)).map (fun r => ⟨r⟩)

/-- Embeds the branch of summarize_and_extract_terms taken when OPENAI_API_KEY
is not configured (src/main.py:427-440): deterministic local summary plus a
naive keyword guess. The url and category arguments are unused by that branch,
as in the source. -/
def summarize_and_extract_terms_no_key (title url snippet category : String) :
    String × List String :=
  let summary0 := _compact snippet 300
  let summary := if summary0 = "" then _compact title 300 else summary0
  let toks0 := findTermTokens (title ++ " " ++ snippet)
  let toks1 := toks0.filter (fun t => 2 ≤ t.length)
  let toks := _dedupe_preserve toks1
  let terms0 := if 2 ≤ toks.length then toks.take 2 else (toks ++ ["", ""]).take 2
  let terms1 := (terms0.map pyStrip).filter (fun t => decide (t ≠ ""))
  let terms2 := if terms1.length < 2 then (terms1 ++ ["핵심용어"]).take 2 else terms1
  (summary, terms2.take 2)

/-- C5: the claim fails on the code. On an input whose title and snippet hold
no term characters, the fallback pads the empty term list with the placeholder
only once and returns a single term, while the claim (and the docstring of the
function, which promises a two-element term list) require exactly two. -/
theorem summarize_no_key_single_term :
    summarize_and_extract_terms_no_key "!" "" "" "경제" = ("!", ["핵심용어"]) ∧
    (summarize_and_extract_terms_no_key "!" "" "" "경제").2.length = 1 := by
  constructor
  · rfl
  · rfl

/-! ## Notion record operations (property builders, find, upsert)

The Notion databases are modelled by an explicit state; every repository
operation returns the new state together with the list of Notion calls it
issued, so that frame conditions about payloads can be stated. -/

/-- Value of one property in a creation or update payload, as built by the
prop_* helpers (src/main.py:487-508). -/
inductive PropValue
  | titleV (text : String)
  | richTextV (text : String)
  | dateV (dateIso : String)
  | selectV (name : String)
  | urlV (u : String)
  | relationV (ids : List String)
deriving DecidableEq

/-- Embeds prop_title (src/main.py:487). -/
def prop_title (text : String) : PropValue := .titleV text

/-- Embeds prop_rich_text (src/main.py:491). -/
def prop_rich_text (text : String) : PropValue := .richTextV text

/-- Embeds prop_date (src/main.py:495). -/
def prop_date (dateIso : String) : PropValue := .dateV dateIso

/-- Embeds prop_select (src/main.py:499). -/
def prop_select (name : String) : PropValue := .selectV name

/-- Embeds prop_url (src/main.py:503). -/
def prop_url (u : String) : PropValue := .urlV u

/-- Embeds prop_relation (src/main.py:507); relation entries are modelled by
their bare page-id strings. -/
def prop_relation (ids : List String) : PropValue := .relationV ids

/-- A term page: page id, title property 용어, rich-text property 의미, and
the stored relation entries of 관련 기사 (bare ids; an external writer may
have stored duplicates or empty entries). -/
structure TermPage where
  id : String
  term : String
  meaning : String
  relation : List String
deriving DecidableEq

/-- The Notion state the pipeline reads and writes: article pages are (page
id, url property) pairs (only the url property matters to the pipeline logic),
term pages as above. `counter` supplies fresh ids for created pages. -/
structure NotionState where
  news : List (String × String)
  terms : List TermPage
  counter : Nat
deriving DecidableEq

/-- Fresh page id returned by the modelled create call. -/
def freshId (st : NotionState) : String := "page" ++ toString st.counter

/-- The Notion calls the pipeline issues, with their payloads. -/
inductive NotionOp
  | queryNewsByUrl (url : String)
  | queryTermByTitle (term : String)
  | createPage (pageId : String) (props : List (String × PropValue))
  | retrievePage (pageId : String)
  | updatePage (pageId : String) (props : List (String × PropValue))
deriving DecidableEq

/-- Embeds notion_find_news_by_url (src/main.py:516-522): the exact url filter
with page size 1 returns the id of the first matching page. -/
def notion_find_news_by_url (st : NotionState) (url : String) : Option String :=
  (st.news.find? (fun p => p.2 == url)).map (fun p => p.1)

/-- Embeds notion_find_term_page together with the subsequent page retrieve
(src/main.py:525-532,564): the exact title filter on the property named 용어
with page size 1 selects the first matching page; the model returns the whole
page where the source returns its id and retrieves the page again. -/
def notion_find_term_page (st : NotionState) (term : String) : Option TermPage :=
  st.terms.find? (fun t => t.term == term)

/-- Embeds notion_get_existing_relation_ids (src/main.py:535-544): relation
entries without a truthy id are skipped, then first occurrences are kept. -/
def notion_get_existing_relation_ids (rel : List String) : List String :=
  _dedupe_preserve (rel.filter (fun s => decide (s ≠ "")))

/-- Embeds upsert_term_and_link (src/main.py:547-572): create the term page on
first encounter, otherwise merge the news page id into the relation property,
writing nothing when it is already linked. -/
def upsert_term_and_link (st : NotionState) (term : String) (newsPageId : String) :
    NotionState × List NotionOp :=
  match notion_find_term_page st term with
  | none =>
    ({ st with
        terms := st.terms ++ [⟨freshId st, term, "", [newsPageId]⟩],
        counter := st.counter + 1 },
     [.queryTermByTitle term,
      .createPage (freshId st)
        [("용어", prop_title term), ("의미", prop_rich_text ""),
         ("관련 기사", prop_relation [newsPageId])]])
  | some pg =>
    if newsPageId ∈ notion_get_existing_relation_ids pg.relation then
      (st, [.queryTermByTitle term, .retrievePage pg.id])
    else
      ({ st with
          terms := st.terms.map (fun t =>
            if t.id = pg.id then
              { t with relation := notion_get_existing_relation_ids pg.relation ++ [newsPageId] }
            else t) },
       [.queryTermByTitle term, .retrievePage pg.id,
        .updatePage pg.id
          [("관련 기사",
            prop_relation (notion_get_existing_relation_ids pg.relation ++ [newsPageId]))]])

theorem mem_relation_ids (rel : List String) (x : String) :
    x ∈ notion_get_existing_relation_ids rel ↔ x ∈ rel ∧ x ≠ "" := by
  simp [notion_get_existing_relation_ids, mem_dedupe_preserve, List.mem_filter]

theorem nodup_relation_ids (rel : List String) :
    (notion_get_existing_relation_ids rel).Nodup :=
  nodup_dedupe_preserve _

/-- After the write branch of the upsert, the term lookup finds the same page
carrying the merged relation list. -/
theorem find_term_after_write (st : NotionState) (term : String) (pg : TermPage)
    (merged : List String) (hfind : notion_find_term_page st term = some pg) :
    notion_find_term_page
      { st with terms := st.terms.map (fun t =>
          if t.id = pg.id then { t with relation := merged } else t) } term =
      some { pg with relation := merged } := by
  unfold notion_find_term_page at hfind ⊢
  rw [List.find?_map]
  have hfq : ((fun t : TermPage => t.term == term) ∘ (fun t =>
      if t.id = pg.id then { t with relation := merged } else t)) =
      (fun t : TermPage => t.term == term) := by
    funext t
    by_cases h : t.id = pg.id <;> simp [h]
  rw [hfq, hfind]
  simp

/-- C6: the relation merge of the upsert is a set union keyed by page id: an
already linked article produces no write at all; otherwise the write is
exactly the old id set plus the new id, the stored list is duplicate free, its
id set is the union of the old set with the new id (so no element is ever
lost), and running the same upsert a second time leaves the state exactly as
after the first. -/
theorem upsert_relation_merge_set_semantics (st : NotionState) (term newsId : String)
    (pg : TermPage) (hfind : notion_find_term_page st term = some pg) (hid : newsId ≠ "") :
    (newsId ∈ notion_get_existing_relation_ids pg.relation →
      upsert_term_and_link st term newsId =
        (st, [.queryTermByTitle term, .retrievePage pg.id])) ∧
    (newsId ∉ notion_get_existing_relation_ids pg.relation →
      ∃ pg1, notion_find_term_page (upsert_term_and_link st term newsId).1 term = some pg1 ∧
        pg1.id = pg.id ∧
        pg1.relation = notion_get_existing_relation_ids pg.relation ++ [newsId] ∧
        pg1.relation.Nodup ∧
        (∀ x, x ∈ notion_get_existing_relation_ids pg1.relation ↔
          x ∈ notion_get_existing_relation_ids pg.relation ∨ x = newsId)) ∧
    (upsert_term_and_link (upsert_term_and_link st term newsId).1 term newsId).1 =
      (upsert_term_and_link st term newsId).1 := by
  have hrel1 : ∀ x, x ∈ notion_get_existing_relation_ids
      (notion_get_existing_relation_ids pg.relation ++ [newsId]) ↔
      x ∈ notion_get_existing_relation_ids pg.relation ∨ x = newsId := by
    intro x
    rw [mem_relation_ids]
    constructor
    · rintro ⟨hx, hne⟩
      rcases List.mem_append.mp hx with hx | hx
      · exact Or.inl hx
      · simp only [List.mem_singleton] at hx
        exact Or.inr hx
    · rintro (hx | rfl)
      · exact ⟨List.mem_append_left _ hx, ((mem_relation_ids pg.relation x).mp hx).2⟩
      · exact ⟨List.mem_append_right _ (List.mem_singleton_self _), hid⟩
  refine ⟨?_, ?_, ?_⟩
  · intro hin
    rw [upsert_term_and_link, hfind]
    dsimp only
    rw [if_pos hin]
  · intro hout
    rw [upsert_term_and_link, hfind]
    dsimp only
    rw [if_neg hout]
    dsimp only
    refine ⟨{ pg with relation := notion_get_existing_relation_ids pg.relation ++ [newsId] },
      find_term_after_write st term pg _ hfind, rfl, rfl, ?_, hrel1⟩
    dsimp only
    rw [List.nodup_append]
    refine ⟨nodup_relation_ids pg.relation, List.nodup_singleton _, ?_⟩
    intro x hx
    simp only [List.mem_singleton]
    intro heq
    exact hout (heq ▸ hx)
  · by_cases hin : newsId ∈ notion_get_existing_relation_ids pg.relation
    · have hsame : upsert_term_and_link st term newsId =
          (st, [.queryTermByTitle term, .retrievePage pg.id]) := by
        rw [upsert_term_and_link, hfind]
        dsimp only
        rw [if_pos hin]
      rw [hsame]
      rw [hsame]
    · have hst1 : (upsert_term_and_link st term newsId).1 =
          { st with terms := st.terms.map (fun t =>
            if t.id = pg.id then
              { t with relation := notion_get_existing_relation_ids pg.relation ++ [newsId] }
            else t) } := by
        rw [upsert_term_and_link, hfind]
        dsimp only
        rw [if_neg hin]
      have hfind1 := find_term_after_write st term pg
        (notion_get_existing_relation_ids pg.relation ++ [newsId]) hfind
      rw [hst1]
      rw [upsert_term_and_link, hfind1]
      dsimp only
      rw [if_pos ((hrel1 newsId).mpr (Or.inr rfl))]

/-- Witness for C6 at a concrete state: one term page already linked to one
article, merged with a second article and then merged again. -/
theorem upsert_relation_merge_set_semantics_witness :
    (("a2" : String) ∈ notion_get_existing_relation_ids ["a1"] →
      upsert_term_and_link ⟨[], [⟨"t1", "금리", "", ["a1"]⟩], 0⟩ "금리" "a2" =
        (⟨[], [⟨"t1", "금리", "", ["a1"]⟩], 0⟩,
         [.queryTermByTitle "금리", .retrievePage "t1"])) ∧
    (("a2" : String) ∉ notion_get_existing_relation_ids ["a1"] →
      ∃ pg1, notion_find_term_page
          (upsert_term_and_link ⟨[], [⟨"t1", "금리", "", ["a1"]⟩], 0⟩ "금리" "a2").1
          "금리" = some pg1 ∧
        pg1.id = "t1" ∧
        pg1.relation = notion_get_existing_relation_ids ["a1"] ++ ["a2"] ∧
        pg1.relation.Nodup ∧
        (∀ x, x ∈ notion_get_existing_relation_ids pg1.relation ↔
          x ∈ notion_get_existing_relation_ids ["a1"] ∨ x = "a2")) ∧
    (upsert_term_and_link
        (upsert_term_and_link ⟨[], [⟨"t1", "금리", "", ["a1"]⟩], 0⟩ "금리" "a2").1
        "금리" "a2").1 =
      (upsert_term_and_link ⟨[], [⟨"t1", "금리", "", ["a1"]⟩], 0⟩ "금리" "a2").1 :=
  upsert_relation_merge_set_semantics ⟨[], [⟨"t1", "금리", "", ["a1"]⟩], 0⟩ "금리" "a2"
    ⟨"t1", "금리", "", ["a1"]⟩ (by decide) (by decide)

/-! ## Pipeline orchestration (main, src/main.py:580-664) -/

/-- A parsed RSS item (src/main.py:304-311); publish times are modelled as
natural numbers, absent when pubDate was missing or unparsable. -/
structure RSSItem where
  title : String
  link : String
  published : Option Nat
  author : String
  category : String
  description : String
deriving DecidableEq

/-- Embeds _to_date_iso (src/main.py:129-132), with the calendar formatting of
the timestamp abstracted to its decimal rendering; the current date is used
when the publish time is absent. -/
def _to_date_iso (published : Option Nat) (today : Nat) : String :=
  toString (published.getD today)

/-- The creation payload of a news page (src/main.py:634-642). -/
def news_props_of (it : RSSItem) (summary term_str : String) (today : Nat) :
    List (String × PropValue) :=
  [("게시일", prop_date (_to_date_iso it.published today)),
   ("제목", prop_title it.title),
   ("작성자", prop_rich_text it.author),
   ("카테고리", prop_select it.category),
   ("요약", prop_rich_text summary),
   ("url", prop_url it.link),
   ("용어", prop_rich_text term_str)]

/-- The per-term loop of main (src/main.py:652-656): strip each term, skip the
empty ones, upsert the rest in order. -/
def upsertTerms (st : NotionState) (newsPageId : String) :
    List String → NotionState × List NotionOp
  | [] => (st, [])
  | t :: rest =>
    if pyStrip t = "" then upsertTerms st newsPageId rest
    else
      let r1 := upsert_term_and_link st (pyStrip t) newsPageId
      let r2 := upsertTerms r1.1 newsPageId rest
      (r2.1, r1.2 ++ r2.2)

/-- Embeds the body of the per-item loop of main (src/main.py:616-656): skip
the item when its url already has a page, otherwise summarize, create the news
page and upsert its terms. The summarizer is a parameter covering both the
OpenAI path and the local fallback. -/
def processItem (summarize : RSSItem → String × List String) (today : Nat)
    (st : NotionState) (it : RSSItem) : NotionState × List NotionOp :=
  match notion_find_news_by_url st it.link with
  | some _ => (st, [.queryNewsByUrl it.link])
  | none =>
    let s := summarize it
    let term_str := String.intercalate ", " (s.2.take 2)
    let pid := freshId st
    let st1 : NotionState :=
      { st with news := st.news ++ [(pid, it.link)], counter := st.counter + 1 }
    let r := upsertTerms st1 pid (s.2.take 2)
    (r.1,
     [.queryNewsByUrl it.link, .createPage pid (news_props_of it s.1 term_str today)] ++ r.2)

/-- Embeds the loop over the picked items (src/main.py:616-662). -/
def runPipeline (summarize : RSSItem → String × List String) (today : Nat)
    (st : NotionState) : List RSSItem → NotionState × List NotionOp
  | [] => (st, [])
  | it :: rest =>
    let r1 := processItem summarize today st it
    let r2 := runPipeline summarize today r1.1 rest
    (r2.1, r1.2 ++ r2.2)

theorem upsert_update_props (st : NotionState) (term newsId pid : String)
    (props : List (String × PropValue))
    (hmem : NotionOp.updatePage pid props ∈ (upsert_term_and_link st term newsId).2) :
    props.map Prod.fst = ["관련 기사"] := by
  rw [upsert_term_and_link] at hmem
  cases hf : notion_find_term_page st term with
  | none =>
    rw [hf] at hmem
    simp at hmem
  | some pg =>
    rw [hf] at hmem
    dsimp only at hmem
    by_cases hin : newsId ∈ notion_get_existing_relation_ids pg.relation
    · rw [if_pos hin] at hmem
      simp at hmem
    · rw [if_neg hin] at hmem
      simp only [List.mem_cons, List.mem_singleton, List.not_mem_nil, or_false] at hmem
      rcases hmem with h | h | h
      · exact absurd h (by simp)
      · exact absurd h (by simp)
      · have hprops : props =
            [("관련 기사",
              prop_relation (notion_get_existing_relation_ids pg.relation ++ [newsId]))] := by
          injection h with h1 h2
        rw [hprops]
        rfl

theorem upsertTerms_update_props (newsId pid : String) (props : List (String × PropValue))
    (l : List String) (st : NotionState)
    (hmem : NotionOp.updatePage pid props ∈ (upsertTerms st newsId l).2) :
    props.map Prod.fst = ["관련 기사"] := by
  induction l generalizing st with
  | nil => simp [upsertTerms] at hmem
  | cons t rest ih =>
    rw [upsertTerms] at hmem
    by_cases hemp : pyStrip t = ""
    · rw [if_pos hemp] at hmem
      exact ih _ hmem
    · rw [if_neg hemp] at hmem
      dsimp only at hmem
      rcases List.mem_append.mp hmem with h | h
      · exact upsert_update_props _ _ _ _ _ h
      · exact ih _ h

theorem processItem_update_props (summarize : RSSItem → String × List String)
    (today : Nat) (st : NotionState) (it : RSSItem) (pid : String)
    (props : List (String × PropValue))
    (hmem : NotionOp.updatePage pid props ∈ (processItem summarize today st it).2) :
    props.map Prod.fst = ["관련 기사"] := by
  rw [processItem] at hmem
  cases hf : notion_find_news_by_url st it.link with
  | some x =>
    rw [hf] at hmem
    simp at hmem
  | none =>
    rw [hf] at hmem
    dsimp only at hmem
    rcases List.mem_append.mp hmem with h | h
    · simp at h
    · exact upsertTerms_update_props _ _ _ _ _ h

/-- C7: every page update the pipeline ever issues (all of them come from the
relation merge of upsert_term_and_link) carries a payload whose only property
is the relation field 관련 기사: the title and the meaning text 의미 of a term
record are never written after its creation. -/
theorem update_payload_only_relation :
    (∀ st term newsId pid props,
      NotionOp.updatePage pid props ∈ (upsert_term_and_link st term newsId).2 →
      props.map Prod.fst = ["관련 기사"]) ∧
    (∀ summarize today st items pid props,
      NotionOp.updatePage pid props ∈ (runPipeline summarize today st items).2 →
      props.map Prod.fst = ["관련 기사"]) := by
  constructor
  · exact fun st term newsId pid props h => upsert_update_props st term newsId pid props h
  · intro summarize today st items pid props hmem
    induction items generalizing st with
    | nil => simp [runPipeline] at hmem
    | cons it rest ih =>
      rw [runPipeline] at hmem
      dsimp only at hmem
      rcases List.mem_append.mp hmem with h | h
      · exact processItem_update_props _ _ _ _ _ _ h
      · exact ih _ h

/-- Witness for C7: a concrete merge that does write, whose update payload has
exactly the relation property. -/
theorem update_payload_only_relation_witness :
    NotionOp.updatePage "t1" [("관련 기사", prop_relation ["a1", "a2"])] ∈
      (upsert_term_and_link ⟨[], [⟨"t1", "금리", "", ["a1"]⟩], 0⟩ "금리" "a2").2 ∧
    ([(("관련 기사" : String), prop_relation ["a1", "a2"])].map Prod.fst = ["관련 기사"]) :=
  ⟨by decide,
    update_payload_only_relation.1 ⟨[], [⟨"t1", "금리", "", ["a1"]⟩], 0⟩ "금리" "a2" "t1"
      [("관련 기사", prop_relation ["a1", "a2"])] (by decide)⟩

/-! ## RSS parsing and item selection (parse_rss and main steps 2 and 3) -/

theorem dropWhile_head_false {α : Type} (p : α → Bool) :
    ∀ (l : List α) (c : α) (t : List α), l.dropWhile p = c :: t → p c = false
  | [], c, t, h => by simp at h
  | a :: l, c, t, h => by
    by_cases ha : p a
    · rw [List.dropWhile_cons, if_pos ha] at h
      exact dropWhile_head_false p l c t h
    · rw [List.dropWhile_cons, if_neg ha] at h
      injection h with h1 h2
      rw [← h1]
      simpa using ha

theorem stripList_eq_nil_iff (l : List Char) :
    stripList l = [] ↔ ∀ c ∈ l, isPySpace c := by
  unfold stripList
  rw [List.reverse_eq_nil_iff, List.dropWhile_eq_nil_iff]
  constructor
  · intro h c hc
    have hsplit : c ∈ l.takeWhile isPySpace ++ l.dropWhile isPySpace := by
      rw [List.takeWhile_append_dropWhile]
      exact hc
    rcases List.mem_append.mp hsplit with hc2 | hc2
    · exact List.mem_takeWhile_imp hc2
    · exact h c (List.mem_reverse.mpr hc2)
  · intro h c hc
    have hc2 : c ∈ l.dropWhile isPySpace := List.mem_reverse.mp hc
    have hc3 : c ∈ l := by
      rw [← List.takeWhile_append_dropWhile (p := isPySpace) (l := l)]
      exact List.mem_append_right _ hc2
    exact h c hc3

theorem stripList_ne_nil_nonspace (l : List Char) (h : stripList l ≠ []) :
    ∃ c ∈ stripList l, isPySpace c = false := by
  unfold stripList at h ⊢
  cases hi : ((l.dropWhile isPySpace).reverse.dropWhile isPySpace) with
  | nil => rw [hi] at h; simp at h
  | cons c t =>
    refine ⟨c, ?_, dropWhile_head_false isPySpace _ c t hi⟩
    exact List.mem_reverse.mpr (List.mem_cons_self c t)

theorem collapseWS_ne_nil (l : List Char) (h : l ≠ []) : collapseWS false l ≠ [] := by
  cases l with
  | nil => exact absurd rfl h
  | cons c rest =>
    by_cases hc : isPySpace c
    · simp [collapseWS, hc]
    · simp [collapseWS, hc]

theorem mk_eq_empty_iff (l : List Char) : (⟨l⟩ : String) = "" ↔ l = [] := by
  constructor
  · intro h
    have := congrArg String.data h
    simpa using this
  · intro h
    rw [h]

theorem compact_ne_empty (s : String) (n : Nat) (h : stripList s.data ≠ []) :
    _compact s n ≠ "" := by
  unfold _compact
  by_cases hlim : n < (collapseWS false (stripList s.data)).length
  · rw [if_pos hlim]
    intro heq
    have := congrArg String.data heq
    simp only [String.data_append] at this
    have h2 : ((⟨(collapseWS false (stripList s.data)).take n⟩ : String).data ++
        ("…" : String).data).length = 0 := by rw [this]; rfl
    simp at h2
  · rw [if_neg hlim]
    intro heq
    rw [mk_eq_empty_iff] at heq
    exact collapseWS_ne_nil _ h heq

theorem compact_pyStrip_ne_empty (s : String) (n : Nat) (h : pyStrip s ≠ "") :
    _compact (pyStrip s) n ≠ "" := by
  have hd : stripList s.data ≠ [] := by
    intro hc
    exact h (by unfold pyStrip; rw [mk_eq_empty_iff]; exact hc)
  have hdd : stripList (pyStrip s).data ≠ [] := by
    show stripList (stripList s.data) ≠ []
    obtain ⟨c, hc, hcp⟩ := stripList_ne_nil_nonspace s.data hd
    intro heq
    rw [stripList_eq_nil_iff] at heq
    have := heq c hc
    rw [hcp] at this
    exact Bool.false_ne_true this
  exact compact_ne_empty (pyStrip s) n hdd

/-- The fields extracted from one RSS item element (src/main.py:339-346),
before stripping and validation; pubDate parsing is abstracted to an optional
timestamp. -/
structure RawItem where
  title : String
  link : String
  published : Option Nat
  author : String
  description : String
deriving DecidableEq

/-- Embeds re.sub of the HTML tag pattern with a space (src/main.py:349). The
buffer holds, in reverse, the characters of a potential tag opened by a
less-than sign; a closing greater-than sign with at least one character in
between completes a tag, which becomes one space; a buffer still open at the
end of input never completes a tag and is emitted literally, exactly as the
greedy regex leaves those characters untouched. -/
def stripTagsAux : Option (List Char) → List Char → List Char
  | none, [] => []
  | some buf, [] => buf.reverse
  | none, c :: rest =>
    if c = '<' then stripTagsAux (some [c]) rest
    else c :: stripTagsAux none rest
  | some buf, c :: rest =>
    if c = '>' then
      if 2 ≤ buf.length then ' ' :: stripTagsAux none rest
      else buf.reverse ++ ('>' :: stripTagsAux none rest)
    else stripTagsAux (some (c :: buf)) rest

/-- The tag-stripping substitution on strings. -/
def stripTags (s : String) : String := ⟨stripTagsAux none s.data⟩

/-- Embeds parse_rss (src/main.py:321-363) after XML extraction: an item is
kept exactly when its stripped title and stripped link are both nonempty; kept
items carry the compacted fields. -/
def parse_rss (raw : List RawItem) (category : String) : List RSSItem :=
  raw.filterMap fun r =>
    if pyStrip r.title = "" then none
    else if pyStrip r.link = "" then none
    else some
      { title := _compact (pyStrip r.title) 300
        link := pyStrip r.link
        published := r.published
        author := _compact (pyStrip r.author) 100
        category := category
        description := _compact (stripTags (pyStrip r.description)) 1200 }

/-- The allowed category values (src/main.py:74). -/
def NEWS_CATEGORY_ALLOWED : List String := ["경제", "국제", "ai", "cj"]

/-- Embeds the feed loop of main (src/main.py:590-597): feeds with a category
outside the allowed set are skipped, the others contribute their parsed items
in feed order; each fetched feed is modelled by its list of raw items. -/
def gatherItems (feeds : List (String × List RawItem)) : List RSSItem :=
  (feeds.filter (fun f => NEWS_CATEGORY_ALLOWED.contains f.1)).flatMap
    (fun f => parse_rss f.2 f.1)

/-- The sort key of src/main.py:600: the publish time, the current time when
absent. -/
def sortKey (now : Nat) (it : RSSItem) : Nat := it.published.getD now

/-- The descending ordering of the stable sort on src/main.py:600. -/
def newerRel (now : Nat) (a b : RSSItem) : Prop := sortKey now b ≤ sortKey now a

instance (now : Nat) : DecidableRel (newerRel now) := fun a b => by
  unfold newerRel; infer_instance

instance (now : Nat) : IsTotal RSSItem (newerRel now) :=
  ⟨fun a b => le_total (sortKey now b) (sortKey now a)⟩

instance (now : Nat) : IsTrans RSSItem (newerRel now) :=
  ⟨fun _ _ _ h1 h2 => le_trans h2 h1⟩

/-- Embeds list.sort with the publish-time key and reverse=True
(src/main.py:600): a stable descending sort. -/
def sortItemsDesc (now : Nat) (items : List RSSItem) : List RSSItem :=
  List.insertionSort (newerRel now) items

/-- Embeds the pick loop of main (src/main.py:603-611): scan in order, skip
links already picked, append the rest, stop once three are picked;
`remaining` counts how many may still be picked. -/
def pickGo : List String → Nat → List RSSItem → List RSSItem
  | _, _, [] => []
  | seen, remaining, it :: rest =>
    if it.link ∈ seen then pickGo seen remaining rest
    else if remaining ≤ 1 then [it]
    else it :: pickGo (it.link :: seen) (remaining - 1) rest

/-- Embeds steps 2 and 3 of main (src/main.py:589-611): gather the feed items,
sort them by descending publish time, pick the first three distinct links. -/
def pickItems (feeds : List (String × List RawItem)) (now : Nat) : List RSSItem :=
  pickGo [] 3 (sortItemsDesc now (gatherItems feeds))

theorem pickGo_spec (l : List RSSItem) : ∀ (seen : List String) (k : Nat), 1 ≤ k →
    (pickGo seen k l).length ≤ k ∧
    (pickGo seen k l).Sublist l ∧
    (∀ p ∈ pickGo seen k l, p.link ∉ seen) ∧
    ((pickGo seen k l).map (fun it => it.link)).Nodup ∧
    (∀ p ∈ pickGo seen k l, l.find? (fun q => q.link == p.link) = some p) := by
  induction l with
  | nil => intro seen k hk; simp [pickGo]
  | cons it rest ih =>
    intro seen k hk
    rw [pickGo]
    by_cases hin : it.link ∈ seen
    · rw [if_pos hin]
      obtain ⟨h1, h2, h3, h4, h5⟩ := ih seen k hk
      refine ⟨h1, h2.cons it, h3, h4, ?_⟩
      intro p hp
      have hne : (it.link == p.link) = false := by
        rw [beq_eq_false_iff_ne]
        intro heq
        exact h3 p hp (heq ▸ hin)
      rw [List.find?_cons, hne]
      exact h5 p hp
    · rw [if_neg hin]
      by_cases h1 : k ≤ 1
      · rw [if_pos h1]
        refine ⟨by simpa using hk, (List.nil_sublist rest).cons₂ it, ?_, by simp, ?_⟩
        · intro p hp
          simp only [List.mem_singleton] at hp
          rw [hp]
          exact hin
        · intro p hp
          simp only [List.mem_singleton] at hp
          subst hp
          rw [List.find?_cons]
          simp
      · rw [if_neg h1]
        obtain ⟨g1, g2, g3, g4, g5⟩ := ih (it.link :: seen) (k - 1) (by omega)
        refine ⟨by simp only [List.length_cons]; omega, g2.cons₂ it, ?_, ?_, ?_⟩
        · intro p hp
          rcases List.mem_cons.mp hp with rfl | hp2
          · exact hin
          · intro hc
            exact g3 p hp2 (List.mem_cons_of_mem _ hc)
        · rw [List.map_cons, List.nodup_cons]
          refine ⟨?_, g4⟩
          intro hc
          obtain ⟨p, hp, hpl⟩ := List.mem_map.mp hc
          exact g3 p hp (hpl ▸ List.mem_cons_self _ _)
        · intro p hp
          rcases List.mem_cons.mp hp with rfl | hp2
          · rw [List.find?_cons]
            simp
          · have hne : (it.link == p.link) = false := by
              rw [beq_eq_false_iff_ne]
              intro heq
              exact g3 p hp2 (heq ▸ List.mem_cons_self _ _)
            rw [List.find?_cons, hne]
            exact g5 p hp2

theorem gatherItems_valid (feeds : List (String × List RawItem)) :
    ∀ p ∈ gatherItems feeds, p.title ≠ "" ∧ p.link ≠ "" := by
  intro p hp
  unfold gatherItems at hp
  rw [List.mem_flatMap] at hp
  obtain ⟨f, _, hpf⟩ := hp
  unfold parse_rss at hpf
  rw [List.mem_filterMap] at hpf
  obtain ⟨r, _, hr⟩ := hpf
  by_cases ht : pyStrip r.title = ""
  · rw [if_pos ht] at hr
    exact absurd hr (by simp)
  · rw [if_neg ht] at hr
    by_cases hl : pyStrip r.link = ""
    · rw [if_pos hl] at hr
      exact absurd hr (by simp)
    · rw [if_neg hl] at hr
      injection hr with hr
      rw [← hr]
      exact ⟨compact_pyStrip_ne_empty r.title 300 ht, hl⟩

/-- C9: the selection picks at most three items, their links are pairwise
distinct, the picked list is a subsequence of the descending-publish-time
stable sort of the parsed items (hence itself in descending publish-time
order), each picked item is the first item of the sorted list carrying its
link, and every picked item has a nonempty title and link because items
lacking either were dropped by parse_rss before selection. -/
theorem pipeline_picks_three_recent (feeds : List (String × List RawItem)) (now : Nat) :
    (pickItems feeds now).length ≤ 3 ∧
    ((pickItems feeds now).map (fun it => it.link)).Nodup ∧
    (pickItems feeds now).Sublist (sortItemsDesc now (gatherItems feeds)) ∧
    (pickItems feeds now).Pairwise (fun a b => sortKey now b ≤ sortKey now a) ∧
    (∀ p ∈ pickItems feeds now,
      (sortItemsDesc now (gatherItems feeds)).find? (fun q => q.link == p.link) = some p) ∧
    (∀ p ∈ pickItems feeds now, p.title ≠ "" ∧ p.link ≠ "") := by
  obtain ⟨h1, h2, h3, h4, h5⟩ :=
    pickGo_spec (sortItemsDesc now (gatherItems feeds)) [] 3 (by omega)
  have hsorted : (sortItemsDesc now (gatherItems feeds)).Pairwise (newerRel now) :=
    List.sorted_insertionSort (newerRel now) (gatherItems feeds)
  refine ⟨h1, h4, h2, ?_, h5, ?_⟩
  · exact (hsorted.sublist h2).imp (fun h => h)
  · intro p hp
    have : p ∈ sortItemsDesc now (gatherItems feeds) := h2.mem hp
    have hg : p ∈ gatherItems feeds := (List.mem_insertionSort (newerRel now)).mp this
    exact gatherItems_valid feeds p hg

/-- A concrete single-feed snapshot used by the selection witness. -/
def demoFeeds : List (String × List RawItem) :=
  [("경제", [⟨"금리", "u1", some 10, "", ""⟩])]

/-- Witness for C9 on a one-item feed: the item survives parsing, is picked,
and has nonempty title and link. -/
theorem pipeline_picks_three_recent_witness :
    (pickItems demoFeeds 1000).length ≤ 3 ∧
    (⟨"금리", "u1", some 10, "", "경제", ""⟩ : RSSItem) ∈ pickItems demoFeeds 1000 ∧
    ((⟨"금리", "u1", some 10, "", "경제", ""⟩ : RSSItem).title ≠ "" ∧
      (⟨"금리", "u1", some 10, "", "경제", ""⟩ : RSSItem).link ≠ "") :=
  ⟨(pipeline_picks_three_recent demoFeeds 1000).1, by decide,
    (pipeline_picks_three_recent demoFeeds 1000).2.2.2.2.2
      ⟨"금리", "u1", some 10, "", "경제", ""⟩ (by decide)⟩

/-! ## De-duplication idempotence (main step 4, src/main.py:616-621) -/

/-- Number of article pages whose url property equals u. -/
def countUrl (st : NotionState) (u : String) : Nat :=
  st.news.countP (fun p => p.2 == u)

theorem upsert_news_unchanged (st : NotionState) (term newsId : String) :
    (upsert_term_and_link st term newsId).1.news = st.news := by
  rw [upsert_term_and_link]
  cases hf : notion_find_term_page st term with
  | none => rfl
  | some pg =>
    dsimp only
    by_cases hin : newsId ∈ notion_get_existing_relation_ids pg.relation
    · rw [if_pos hin]
    · rw [if_neg hin]

theorem upsertTerms_news_unchanged (newsId : String) (l : List String) (st : NotionState) :
    (upsertTerms st newsId l).1.news = st.news := by
  induction l generalizing st with
  | nil => rfl
  | cons t rest ih =>
    rw [upsertTerms]
    by_cases hemp : pyStrip t = ""
    · rw [if_pos hemp]
      exact ih st
    · rw [if_neg hemp]
      dsimp only
      rw [ih]
      exact upsert_news_unchanged _ _ _

theorem processItem_skip (summarize : RSSItem → String × List String) (today : Nat)
    (st : NotionState) (it : RSSItem) (pid : String)
    (hf : notion_find_news_by_url st it.link = some pid) :
    processItem summarize today st it = (st, [.queryNewsByUrl it.link]) := by
  rw [processItem, hf]

theorem processItem_create_news (summarize : RSSItem → String × List String) (today : Nat)
    (st : NotionState) (it : RSSItem)
    (hf : notion_find_news_by_url st it.link = none) :
    (processItem summarize today st it).1.news = st.news ++ [(freshId st, it.link)] := by
  rw [processItem, hf]
  dsimp only
  rw [upsertTerms_news_unchanged]

theorem find_news_none_iff (st : NotionState) (u : String) :
    notion_find_news_by_url st u = none ↔ countUrl st u = 0 := by
  unfold notion_find_news_by_url countUrl
  rw [Option.map_eq_none', List.find?_eq_none, List.countP_eq_zero]

theorem find_news_isSome_of_count (st : NotionState) (u : String)
    (h : 1 ≤ countUrl st u) : ∃ pid, notion_find_news_by_url st u = some pid := by
  unfold countUrl at h
  have : ∃ p ∈ st.news, (fun p : String × String => p.2 == u) p := by
    by_contra hc
    push_neg at hc
    have : st.news.countP (fun p => p.2 == u) = 0 := by
      rw [List.countP_eq_zero]
      intro a ha
      simpa using hc a ha
    omega
  obtain ⟨p, hp, hpu⟩ := this
  unfold notion_find_news_by_url
  have : (st.news.find? (fun p => p.2 == u)).isSome := by
    rw [List.find?_isSome]
    exact ⟨p, hp, hpu⟩
  obtain ⟨q, hq⟩ := Option.isSome_iff_exists.mp this
  exact ⟨q.1, by rw [hq]; rfl⟩

theorem countUrl_processItem_create (summarize : RSSItem → String × List String)
    (today : Nat) (st : NotionState) (it : RSSItem) (u : String)
    (hf : notion_find_news_by_url st it.link = none) :
    countUrl (processItem summarize today st it).1 u =
      countUrl st u + (if it.link = u then 1 else 0) := by
  unfold countUrl
  rw [processItem_create_news summarize today st it hf, List.countP_append]
  congr 1
  simp only [List.countP_cons, List.countP_nil]
  by_cases h : it.link = u
  · simp [h]
  · simp [h, beq_eq_false_iff_ne]

theorem runPipeline_counts (summarize : RSSItem → String × List String) (today : Nat) :
    ∀ (picked : List RSSItem) (st : NotionState),
    ((picked.map (fun it => it.link)).Nodup) →
    (∀ it ∈ picked, notion_find_news_by_url st it.link = none) →
    (∀ it ∈ picked, countUrl (runPipeline summarize today st picked).1 it.link = 1) ∧
    (∀ u, (∀ it ∈ picked, it.link ≠ u) →
      countUrl (runPipeline summarize today st picked).1 u = countUrl st u) := by
  intro picked
  induction picked with
  | nil =>
    intro st _ _
    exact ⟨fun it hit => absurd hit (List.not_mem_nil it), fun u _ => rfl⟩
  | cons it rest ih =>
    intro st hnodup hnone
    have hfind : notion_find_news_by_url st it.link = none :=
      hnone it (List.mem_cons_self _ _)
    have hnodup2 : ((rest.map (fun x => x.link)).Nodup) := by
      rw [List.map_cons, List.nodup_cons] at hnodup
      exact hnodup.2
    have hhead : ∀ x ∈ rest, x.link ≠ it.link := by
      intro x hx heq
      rw [List.map_cons, List.nodup_cons] at hnodup
      exact hnodup.1 (heq ▸ List.mem_map_of_mem _ hx)
    have hnone2 : ∀ x ∈ rest,
        notion_find_news_by_url (processItem summarize today st it).1 x.link = none := by
      intro x hx
      rw [find_news_none_iff]
      rw [countUrl_processItem_create summarize today st it x.link hfind]
      rw [if_neg (fun heq => hhead x hx heq.symm)]
      have := (find_news_none_iff st x.link).mp (hnone x (List.mem_cons_of_mem _ hx))
      omega
    obtain ⟨ihc, ihp⟩ := ih (processItem summarize today st it).1 hnodup2 hnone2
    have hrun : (runPipeline summarize today st (it :: rest)).1 =
        (runPipeline summarize today (processItem summarize today st it).1 rest).1 := by
      rw [runPipeline]
    constructor
    · intro x hx
      rcases List.mem_cons.mp hx with rfl | hx2
      · rw [hrun, ihp x.link (fun y hy => hhead y hy)]
        rw [countUrl_processItem_create summarize today st x x.link hfind, if_pos rfl]
        have := (find_news_none_iff st x.link).mp hfind
        omega
      · rw [hrun]
        exact ihc x hx2
    · intro u hu
      rw [hrun, ihp u (fun y hy => hu y (List.mem_cons_of_mem _ hy))]
      rw [countUrl_processItem_create summarize today st it u hfind]
      rw [if_neg (hu it (List.mem_cons_self _ _))]
      omega

theorem runPipeline_all_duplicates (summarize : RSSItem → String × List String)
    (today : Nat) :
    ∀ (picked : List RSSItem) (st : NotionState),
    (∀ it ∈ picked, ∃ pid, notion_find_news_by_url st it.link = some pid) →
    runPipeline summarize today st picked =
      (st, picked.map (fun it => NotionOp.queryNewsByUrl it.link)) := by
  intro picked
  induction picked with
  | nil => intro st _; rfl
  | cons it rest ih =>
    intro st hall
    obtain ⟨pid, hpid⟩ := hall it (List.mem_cons_self _ _)
    rw [runPipeline, processItem_skip summarize today st it pid hpid]
    dsimp only
    rw [ih st (fun x hx => hall x (List.mem_cons_of_mem _ hx))]
    rfl

/-- C10: an item whose url already has an article page is skipped entirely,
the only Notion call made for it being the duplicate query, and the state
(in particular all term pages and relations) is left untouched; consequently
running the pipeline on a picked list of distinct fresh links creates exactly
one article page per link, and running it a second time over the same picked
list changes nothing and issues only the duplicate queries. -/
theorem pipeline_dedup_idempotent :
    (∀ summarize today st it pid,
      notion_find_news_by_url st it.link = some pid →
      processItem summarize today st it = (st, [NotionOp.queryNewsByUrl it.link])) ∧
    (∀ summarize today st0 picked,
      ((picked.map (fun it => it.link)).Nodup) →
      (∀ it ∈ picked, notion_find_news_by_url st0 it.link = none) →
      (∀ it ∈ picked, countUrl (runPipeline summarize today st0 picked).1 it.link = 1) ∧
      runPipeline summarize today (runPipeline summarize today st0 picked).1 picked =
        ((runPipeline summarize today st0 picked).1,
          picked.map (fun it => NotionOp.queryNewsByUrl it.link))) := by
  constructor
  · exact fun summarize today st it pid h => processItem_skip summarize today st it pid h
  · intro summarize today st0 picked hnodup hnone
    obtain ⟨hc, _⟩ := runPipeline_counts summarize today picked st0 hnodup hnone
    refine ⟨hc, ?_⟩
    apply runPipeline_all_duplicates
    intro it hit
    exact find_news_isSome_of_count _ _ (by rw [hc it hit])

/-- Demo summarizer used by the idempotence witness. -/
def demoSummarize : RSSItem → String × List String :=
  fun _ => ("연준이 금리를 동결했다.", ["금리", "연준"])

/-- Demo item used by the idempotence witness. -/
def demoItem : RSSItem := ⟨"금리 동결", "u1", some 10, "기자", "경제", "요약"⟩

/-- Witness for C10: one fresh item is created exactly once, and a second run
over the same snapshot changes nothing and only issues the duplicate query. -/
theorem pipeline_dedup_idempotent_witness :
    countUrl (runPipeline demoSummarize 0 ⟨[], [], 0⟩ [demoItem]).1 "u1" = 1 ∧
    runPipeline demoSummarize 0 (runPipeline demoSummarize 0 ⟨[], [], 0⟩ [demoItem]).1
        [demoItem] =
      ((runPipeline demoSummarize 0 ⟨[], [], 0⟩ [demoItem]).1,
        [NotionOp.queryNewsByUrl "u1"]) := by
  obtain ⟨h1, h2⟩ := pipeline_dedup_idempotent.2 demoSummarize 0 ⟨[], [], 0⟩ [demoItem]
    (by decide) (by decide)
  exact ⟨h1 demoItem (List.mem_cons_self _ _), h2⟩

/-! ## Field addressing (how the pipeline names properties)

The source addresses every property by a fixed display name; there is no field
mapper in src/main.py. The specification describes a mapper with
case-insensitive and kind-based resolution, embedded below from the words of
the spec in order to compare the two. -/

/-- The property kinds relevant here. -/
inductive FieldKind
  | title | richText | date | select | url | multiSelect | relation
deriving DecidableEq

/-- An exact-match title filter body as built by notion_find_term_page
(src/main.py:527). -/
structure TitleFilter where
  property : String
  equalsValue : String
deriving DecidableEq

/-- Embeds the filter construction of src/main.py:527: the filtered property
is the fixed name 용어, independent of the schema. -/
def term_lookup_filter (term : String) : TitleFilter := ⟨"용어", term⟩

/-- ASCII lower-casing used to express the case-insensitive comparison the
spec asks for. -/
def lowerChar (c : Char) : Char :=
  if 'A' ≤ c ∧ c ≤ 'Z' then Char.ofNat (c.toNat + 32) else c

/-- ASCII lower-casing of a string. -/
def lowerStr (s : String) : String := ⟨s.data.map lowerChar⟩

/-- Modelled from the spec (section 4.3, Field Mapper), behaviour that has no
counterpart in src/: resolve a logical field name by exact match first, then
case-insensitively; for the logical title field, when the name-resolved field
is not of kind title, substitute the one schema field of kind title. The
schema maps field names to kinds. -/
def specResolveTitleField (schema : List (String × FieldKind)) (logicalName : String) :
    Option String :=
  match schema.find? (fun e => e.1 == logicalName) with
  | some e =>
    if e.2 = FieldKind.title then some e.1
    else (schema.find? (fun f => f.2 == FieldKind.title)).map (fun f => f.1)
  | none =>
    match schema.find? (fun e => lowerStr e.1 == lowerStr logicalName) with
    | some e =>
      if e.2 = FieldKind.title then some e.1
      else (schema.find? (fun f => f.2 == FieldKind.title)).map (fun f => f.1)
    | none => (schema.find? (fun f => f.2 == FieldKind.title)).map (fun f => f.1)

/-- C8 counterexample: on a terms schema whose real title field is named 단어,
the mapper described by the claim resolves the logical title to 단어, but the
lookup the code performs filters on the fixed property name 용어 — the code
does not operate on the real title field, so the claimed case-insensitive and
kind-substituting resolution does not happen. -/
theorem field_mapper_claim_counterexample :
    specResolveTitleField [("단어", FieldKind.title), ("의미", FieldKind.richText)] "용어" =
      some "단어" ∧
    (term_lookup_filter "금리").property = "용어" ∧
    (term_lookup_filter "금리").property ≠ "단어" := by
  refine ⟨?_, rfl, ?_⟩
  · decide
  · decide

/-- C8 amended: the pipeline performs no field-name resolution at all — the
term lookup always filters on the property literally named 용어, article
creation always writes the fixed property names of the news payload, and term
creation always writes the fixed property names of the term payload,
regardless of the schema; the schema resolver only verifies that the required
names exist. -/
theorem field_addressing_fixed_names :
    (∀ term, term_lookup_filter term = ⟨"용어", term⟩) ∧
    (∀ it summary term_str today,
      (news_props_of it summary term_str today).map Prod.fst =
        ["게시일", "제목", "작성자", "카테고리", "요약", "url", "용어"]) ∧
    (∀ st term newsId pid props,
      NotionOp.createPage pid props ∈ (upsert_term_and_link st term newsId).2 →
      props.map Prod.fst = ["용어", "의미", "관련 기사"]) := by
  refine ⟨fun term => rfl, fun it summary term_str today => rfl, ?_⟩
  intro st term newsId pid props hmem
  rw [upsert_term_and_link] at hmem
  cases hf : notion_find_term_page st term with
  | none =>
    rw [hf] at hmem
    simp only [List.mem_cons, List.mem_singleton, List.not_mem_nil, or_false] at hmem
    rcases hmem with h | h
    · exact absurd h (by simp)
    · have hprops : props = [("용어", prop_title term), ("의미", prop_rich_text ""),
          ("관련 기사", prop_relation [newsId])] := by
        injection h with h1 h2
      rw [hprops]
      rfl
  | some pg =>
    rw [hf] at hmem
    dsimp only at hmem
    by_cases hin : newsId ∈ notion_get_existing_relation_ids pg.relation
    · rw [if_pos hin] at hmem
      simp at hmem
    · rw [if_neg hin] at hmem
      simp at hmem

/-- Witness for the amended C8: a concrete term creation writes exactly the
three fixed property names. -/
theorem field_addressing_fixed_names_witness :
    term_lookup_filter "금리" = ⟨"용어", "금리"⟩ ∧
    NotionOp.createPage "page0"
        [("용어", prop_title "금리"), ("의미", prop_rich_text ""),
         ("관련 기사", prop_relation ["a1"])] ∈
      (upsert_term_and_link ⟨[], [], 0⟩ "금리" "a1").2 ∧
    ([(("용어" : String), prop_title "금리"), ("의미", prop_rich_text ""),
      ("관련 기사", prop_relation ["a1"])].map Prod.fst = ["용어", "의미", "관련 기사"]) :=
  ⟨field_addressing_fixed_names.1 "금리", by decide,
    field_addressing_fixed_names.2.2 ⟨[], [], 0⟩ "금리" "a1" "page0"
      [("용어", prop_title "금리"), ("의미", prop_rich_text ""),
       ("관련 기사", prop_relation ["a1"])] (by decide)⟩

end NewsPipeline
